import Mathlib

/-!
Verification of the doge-hack core (address codec, script templates,
transaction assembler, legacy sighash signing engine) against its
natural-language specification.

Shallow embedding conventions:
* Rust byte slices and `Vec<u8>` are `List Nat`, each element intended `< 256`.
* Machine integers are `Nat` reduced with `% 2 ^ w` where overflow matters.
* Rust `Result` is `Except`, a Rust panic (`expect`, `unwrap`, out-of-bounds
  indexing) is modelled as `Option.none` of an `Option`-returning embedding.
* External cryptographic collaborators used by the code (`bitcoin::hashes`,
  `bitcoin::base58`) are embedded by their published algorithms (SHA-256,
  RIPEMD-160, Bitcoin Base58Check); the secp256k1 ECDSA engine is embedded
  as an explicit record of deterministic functions, mirroring the fact that
  the code calls it through an opaque context object.
-/

namespace DogeHack

/-! ## Little-endian and big-endian integer serialization -/

def le32 (n : Nat) : List Nat :=
  [n % 256, n / 256 % 256, n / 65536 % 256, n / 16777216 % 256]

def le64 (n : Nat) : List Nat :=
  [n % 256, n / 256 % 256, n / 65536 % 256, n / 16777216 % 256,
   n / 4294967296 % 256, n / 1099511627776 % 256,
   n / 281474976710656 % 256, n / 72057594037927936 % 256]

def be64 (n : Nat) : List Nat :=
  [n / 72057594037927936 % 256, n / 281474976710656 % 256,
   n / 1099511627776 % 256, n / 4294967296 % 256,
   n / 16777216 % 256, n / 65536 % 256, n / 256 % 256, n % 256]

/-- Bitcoin variable-length integer (CompactSize) encoding. -/
def varint (n : Nat) : List Nat :=
  if n < 253 then [n]
  else if n < 65536 then 253 :: [n % 256, n / 256 % 256]
  else if n < 4294967296 then 254 :: le32 n
  else 255 :: le64 n

/-! ## SHA-256 (the `bitcoin::hashes::sha256` collaborator) -/

def add32 (a b : Nat) : Nat := (a + b) % 4294967296

def rotr32 (r x : Nat) : Nat := x / 2 ^ r + x % 2 ^ r * 2 ^ (32 - r)

def rotl32 (r x : Nat) : Nat := x % 2 ^ (32 - r) * 2 ^ r + x / 2 ^ (32 - r)

def sha256K : List Nat :=
  [
   1116352408, 1899447441, 3049323471, 3921009573, 961987163, 1508970993,
   2453635748, 2870763221, 3624381080, 310598401, 607225278, 1426881987,
   1925078388, 2162078206, 2614888103, 3248222580, 3835390401, 4022224774,
   264347078, 604807628, 770255983, 1249150122, 1555081692, 1996064986,
   2554220882, 2821834349, 2952996808, 3210313671, 3336571891, 3584528711,
   113926993, 338241895, 666307205, 773529912, 1294757372, 1396182291,
   1695183700, 1986661051, 2177026350, 2456956037, 2730485921, 2820302411,
   3259730800, 3345764771, 3516065817, 3600352804, 4094571909, 275423344,
   430227734, 506948616, 659060556, 883997877, 958139571, 1322822218,
   1537002063, 1747873779, 1955562222, 2024104815, 2227730452, 2361852424,
   2428436474, 2756734187, 3204031479, 3329325298]

def sha256Init : List Nat :=
  [
   1779033703, 3144134277, 1013904242, 2773480762,
   1359893119, 2600822924, 528734635, 1541459225]

def bytesToWordsBE : List Nat → List Nat
  | a :: b :: c :: d :: rest => (((a * 256 + b) * 256 + c) * 256 + d) :: bytesToWordsBE rest
  | _ => []

def wordToBytesBE (w : Nat) : List Nat :=
  [w / 16777216 % 256, w / 65536 % 256, w / 256 % 256, w % 256]

/-- Append the next message-schedule word to a schedule list. -/
def sha256SchedStep (w : List Nat) : List Nat :=
  let n := w.length
  let x15 := w.getD (n - 15) 0
  let x2 := w.getD (n - 2) 0
  let s0 := Nat.xor (Nat.xor (rotr32 7 x15) (rotr32 18 x15)) (x15 / 2 ^ 3)
  let s1 := Nat.xor (Nat.xor (rotr32 17 x2) (rotr32 19 x2)) (x2 / 2 ^ 10)
  w ++ [add32 (add32 (w.getD (n - 16) 0) s0) (add32 (w.getD (n - 7) 0) s1)]

/-- One SHA-256 compression round on the eight working variables. -/
def sha256Round (st : List Nat) (kw : Nat × Nat) : List Nat :=
  let a := st.getD 0 0
  let b := st.getD 1 0
  let c := st.getD 2 0
  let d := st.getD 3 0
  let e := st.getD 4 0
  let f := st.getD 5 0
  let g := st.getD 6 0
  let h := st.getD 7 0
  let s1 := Nat.xor (Nat.xor (rotr32 6 e) (rotr32 11 e)) (rotr32 25 e)
  let ch := Nat.xor (Nat.land e f) (Nat.land (Nat.xor 4294967295 e) g)
  let t1 := add32 h (add32 s1 (add32 ch (add32 kw.1 kw.2)))
  let s0 := Nat.xor (Nat.xor (rotr32 2 a) (rotr32 13 a)) (rotr32 22 a)
  let mj := Nat.xor (Nat.xor (Nat.land a b) (Nat.land a c)) (Nat.land b c)
  let t2 := add32 s0 mj
  [add32 t1 t2, a, b, c, add32 d t1, e, f, g]

def sha256Compress (st : List Nat) (block : List Nat) : List Nat :=
  let w := Nat.repeat sha256SchedStep 48 (bytesToWordsBE block)
  let v := (List.zip sha256K w).foldl sha256Round st
  List.zipWith add32 st v

def chunksOf64 (l : List Nat) : List (List Nat) :=
  if _h : l.length = 0 then [] else l.take 64 :: chunksOf64 (l.drop 64)
termination_by l.length
decreasing_by simp only [List.length_drop]; omega

/-- SHA-256 padding: 0x80, zeros to 56 mod 64, then the bit length big-endian. -/
def sha256Pad (msg : List Nat) : List Nat :=
  msg ++ 128 :: List.replicate ((64 + 56 - (msg.length + 1) % 64) % 64) 0 ++ be64 (8 * msg.length)

def sha256 (msg : List Nat) : List Nat :=
  (((chunksOf64 (sha256Pad msg)).foldl sha256Compress sha256Init).map wordToBytesBE).flatten

/-- Double SHA-256, the digest used by Base58Check checksums and legacy sighash. -/
def sha256d (msg : List Nat) : List Nat := sha256 (sha256 msg)

/-! ## RIPEMD-160 (the `bitcoin::hashes::ripemd160` collaborator) -/

def bytesToWordsLE : List Nat → List Nat
  | a :: b :: c :: d :: rest => (a + 256 * (b + 256 * (c + 256 * d))) :: bytesToWordsLE rest
  | _ => []

def wordToBytesLE (w : Nat) : List Nat :=
  [w % 256, w / 256 % 256, w / 65536 % 256, w / 16777216 % 256]

def rmdInit : List Nat := [1732584193, 4023233417, 2562383102, 271733878, 3285377520]

/-- Round function family; `i` is the round group index 0..4. -/
def rmdF (i x y z : Nat) : Nat :=
  if i = 0 then Nat.xor (Nat.xor x y) z
  else if i = 1 then Nat.lor (Nat.land x y) (Nat.land (Nat.xor 4294967295 x) z)
  else if i = 2 then Nat.xor (Nat.lor x (Nat.xor 4294967295 y)) z
  else if i = 3 then Nat.lor (Nat.land x z) (Nat.land y (Nat.xor 4294967295 z))
  else Nat.xor x (Nat.lor y (Nat.xor 4294967295 z))

def rmdKL : List Nat := [0, 1518500249, 1859775393, 2400959708, 2840853838]

def rmdKR : List Nat := [1352829926, 1548603684, 1836072691, 2053994217, 0]

def rmdRL : List Nat :=
  [0, 1, 2, 3, 4, 5, 6, 7, 8, 9, 10, 11, 12, 13, 14, 15,
   7, 4, 13, 1, 10, 6, 15, 3, 12, 0, 9, 5, 2, 14, 11, 8,
   3, 10, 14, 4, 9, 15, 8, 1, 2, 7, 0, 6, 13, 11, 5, 12,
   1, 9, 11, 10, 0, 8, 12, 4, 13, 3, 7, 15, 14, 5, 6, 2,
   4, 0, 5, 9, 7, 12, 2, 10, 14, 1, 3, 8, 11, 6, 15, 13]

def rmdRR : List Nat :=
  [5, 14, 7, 0, 9, 2, 11, 4, 13, 6, 15, 8, 1, 10, 3, 12,
   6, 11, 3, 7, 0, 13, 5, 10, 14, 15, 8, 12, 4, 9, 1, 2,
   15, 5, 1, 3, 7, 14, 6, 9, 11, 8, 12, 2, 10, 0, 4, 13,
   8, 6, 4, 1, 3, 11, 15, 0, 5, 12, 2, 13, 9, 7, 10, 14,
   12, 15, 10, 4, 1, 5, 8, 7, 6, 2, 13, 14, 0, 3, 9, 11]

def rmdSL : List Nat :=
  [11, 14, 15, 12, 5, 8, 7, 9, 11, 13, 14, 15, 6, 7, 9, 8,
   7, 6, 8, 13, 11, 9, 7, 15, 7, 12, 15, 9, 11, 7, 13, 12,
   11, 13, 6, 7, 14, 9, 13, 15, 14, 8, 13, 6, 5, 12, 7, 5,
   11, 12, 14, 15, 14, 15, 9, 8, 9, 14, 5, 6, 8, 6, 5, 12,
   9, 15, 5, 11, 6, 8, 13, 12, 5, 12, 13, 14, 11, 8, 5, 6]

def rmdSR : List Nat :=
  [8, 9, 9, 11, 13, 15, 15, 5, 7, 7, 8, 11, 14, 14, 12, 6,
   9, 13, 15, 7, 12, 8, 9, 11, 7, 7, 12, 7, 6, 15, 13, 11,
   9, 7, 15, 11, 8, 6, 6, 14, 12, 13, 5, 14, 13, 13, 7, 5,
   15, 5, 8, 11, 14, 14, 6, 14, 6, 9, 12, 9, 12, 5, 15, 8,
   8, 5, 12, 9, 12, 5, 14, 6, 8, 13, 6, 5, 15, 13, 11, 11]

/-- One RIPEMD-160 round of one line.  `st = [a, b, c, d, e]`. -/
def rmdRound (X : List Nat) (right : Bool) (st : List Nat) (j : Nat) : List Nat :=
  let a := st.getD 0 0
  let b := st.getD 1 0
  let c := st.getD 2 0
  let d := st.getD 3 0
  let e := st.getD 4 0
  let fi := if right then 4 - j / 16 else j / 16
  let k := if right then rmdKR.getD (j / 16) 0 else rmdKL.getD (j / 16) 0
  let x := X.getD (if right then rmdRR.getD j 0 else rmdRL.getD j 0) 0
  let s := if right then rmdSR.getD j 0 else rmdSL.getD j 0
  let t := add32 (rotl32 s (add32 (add32 a (rmdF fi b c d)) (add32 x k))) e
  [e, t, b, rotl32 10 c, d]

def rmdCompress (st : List Nat) (block : List Nat) : List Nat :=
  let X := bytesToWordsLE block
  let idx := List.range 80
  let l := idx.foldl (rmdRound X false) st
  let r := idx.foldl (rmdRound X true) st
  let h0 := st.getD 0 0
  let h1 := st.getD 1 0
  let h2 := st.getD 2 0
  let h3 := st.getD 3 0
  let h4 := st.getD 4 0
  [add32 h1 (add32 (l.getD 2 0) (r.getD 3 0)),
   add32 h2 (add32 (l.getD 3 0) (r.getD 4 0)),
   add32 h3 (add32 (l.getD 4 0) (r.getD 0 0)),
   add32 h4 (add32 (l.getD 0 0) (r.getD 1 0)),
   add32 h0 (add32 (l.getD 1 0) (r.getD 2 0))]

/-- RIPEMD-160 padding is SHA-256 padding with a little-endian length field. -/
def rmdPad (msg : List Nat) : List Nat :=
  msg ++ 128 :: List.replicate ((64 + 56 - (msg.length + 1) % 64) % 64) 0 ++ le64 (8 * msg.length)

def ripemd160 (msg : List Nat) : List Nat :=
  (((chunksOf64 (rmdPad msg)).foldl rmdCompress rmdInit).map wordToBytesLE).flatten

/-- HASH160 as used for addresses and P2SH script hashes. -/
def hash160 (msg : List Nat) : List Nat := ripemd160 (sha256 msg)

/-! ## Base58Check (the `bitcoin::base58` collaborator)

Rust strings are embedded as `List Char`. -/

def b58Alphabet : List Char :=
  "123456789ABCDEFGHJKLMNPQRSTUVWXYZabcdefghijkmnopqrstuvwxyz".toList

def b58Char (d : Nat) : Char := b58Alphabet.getD d '1'

def isB58 (c : Char) : Bool := b58Alphabet.contains c

def b58Val (c : Char) : Nat := b58Alphabet.findIdx (fun x => x == c)

/-- Leading occurrences of `x` at the front of a list. -/
def countLeading {α : Type} [DecidableEq α] (x : α) : List α → Nat
  | [] => 0
  | y :: ys => if y = x then countLeading x ys + 1 else 0

/-- Big-endian byte-sequence value. -/
def ofBytesBE (bs : List Nat) : Nat := bs.foldl (fun a b => a * 256 + b) 0

/-- Big-endian value of a Base58 digit string. -/
def b58Num (s : List Char) : Nat := s.foldl (fun a c => a * 58 + b58Val c) 0

/-- Base58 encoding: one `1` per leading zero byte, then base-58 digits. -/
def b58Encode (bs : List Nat) : List Char :=
  List.replicate (countLeading 0 bs) '1' ++ (Nat.digits 58 (ofBytesBE bs)).reverse.map b58Char

/-- Raw Base58 byte interpretation of a digit string: one zero byte per
leading `1`, then the big-endian bytes of the base-58 value. -/
def rawB58 (s : List Char) : List Nat :=
  List.replicate (countLeading '1' s) 0 ++ (Nat.digits 256 (b58Num s)).reverse

/-- Base58 decoding: `none` on a character outside the alphabet. -/
def b58Decode (s : List Char) : Option (List Nat) :=
  if s.all isB58 then some (rawB58 s) else none

def encode_check (payload : List Nat) : List Char :=
  b58Encode (payload ++ (sha256d payload).take 4)

/-- Base58Check decoding: strip and verify the 4-byte double-SHA256 checksum.
A decoded string shorter than 4 bytes has no checksum and fails. -/
def decode_check (s : List Char) : Option (List Nat) :=
  match b58Decode s with
  | none => none
  | some data =>
    if data.length < 4 then none
    else if data.drop (data.length - 4) = (sha256d (data.take (data.length - 4))).take 4 then
      some (data.take (data.length - 4))
    else none

/-! ## Network (src/network.rs) -/

inductive Network where
  | Testnet : Network
  | Mainnet : Network
deriving DecidableEq

def Network.p2pkh_version_byte : Network → Nat
  | .Testnet => 0x71
  | .Mainnet => 0x1E

def Network.p2sh_version_byte : Network → Nat
  | .Testnet => 0xC4
  | .Mainnet => 0x16

def Network.wif_version_byte : Network → Nat
  | .Testnet => 0xF1
  | .Mainnet => 0x9E

/-! ## Address codec (src/address.rs) -/

inductive AddressKind where
  | P2pkh : AddressKind
  | P2sh : AddressKind
deriving DecidableEq

/-- Error type of `DogeAddress::from_base58`.  The Rust `InvalidBase58Check`
variant carries the library's error message string; the message carries no
semantic content used anywhere, so it is elided here. -/
inductive AddressError where
  | invalidBase58Check : AddressError
  | invalidLength : Nat → AddressError
  | unknownVersionByte : Nat → AddressError
deriving DecidableEq

structure DogeAddress where
  payload : List Nat
  network : Network
deriving DecidableEq

def DogeAddress.from_pubkey (public_key : List Nat) (network : Network) : DogeAddress :=
  { payload := network.p2pkh_version_byte :: ripemd160 (sha256 public_key), network }

def DogeAddress.from_pubkey_hash (pubkey_hash20 : List Nat) (network : Network) : DogeAddress :=
  { payload := network.p2pkh_version_byte :: pubkey_hash20, network }

def DogeAddress.from_script_hash (script_hash20 : List Nat) (network : Network) : DogeAddress :=
  { payload := network.p2sh_version_byte :: script_hash20, network }

def DogeAddress.from_base58 (s : List Char) : Except AddressError DogeAddress :=
  match decode_check s with
  | none => .error .invalidBase58Check
  | some decoded =>
    if decoded.length ≠ 21 then .error (.invalidLength decoded.length)
    else
      let version := decoded.headD 0
      if version = Network.Testnet.p2pkh_version_byte ∨
          version = Network.Testnet.p2sh_version_byte then
        .ok { payload := decoded, network := .Testnet }
      else if version = Network.Mainnet.p2pkh_version_byte ∨
          version = Network.Mainnet.p2sh_version_byte then
        .ok { payload := decoded, network := .Mainnet }
      else .error (.unknownVersionByte version)

/-- Address kind from the stored version byte.  The Rust source indexes
`self.payload[0]`, which panics on an empty payload; every constructor
produces a 21-byte payload, so the total `headD` is observationally equal. -/
def DogeAddress.kind (a : DogeAddress) : AddressKind :=
  let version := a.payload.headD 0
  if version = a.network.p2pkh_version_byte then .P2pkh
  else if version = a.network.p2sh_version_byte then .P2sh
  else .P2pkh

/-- The 20-byte HASH160 embedded in the address: Rust `&self.payload[1..21]`. -/
def DogeAddress.hash160 (a : DogeAddress) : List Nat := (a.payload.drop 1).take 20

def DogeAddress.pubkey_hash (a : DogeAddress) : List Nat := (a.payload.drop 1).take 20

def DogeAddress.to_string (a : DogeAddress) : List Char := encode_check a.payload

/-! ## Script templates (src/script.rs) -/

inductive ScriptError where
  | invalidThreshold : Nat → Nat → ScriptError
  | invalidPubkeyLength : Nat → ScriptError
deriving DecidableEq

def OP_DUP : Nat := 0x76
def OP_HASH160 : Nat := 0xa9
def OP_EQUALVERIFY : Nat := 0x88
def OP_CHECKSIG : Nat := 0xac
def OP_EQUAL : Nat := 0x87
def OP_PUSHBYTES_0 : Nat := 0x00
def OP_CHECKMULTISIG : Nat := 0xae
def OP_RETURN_BYTE : Nat := 0x6a

/-- Opcode for the small number `n`: `OP_PUSHNUM_n = 0x50 + n` for 1..16,
`OP_PUSHBYTES_0` for 0, and the source's `OP_RETURN` wildcard otherwise. -/
def op_n (n : Nat) : Nat :=
  if n = 0 then OP_PUSHBYTES_0
  else if n ≤ 16 then 0x50 + n
  else OP_RETURN_BYTE

/-- The `ScriptBuilder::push_slice` data-push encoding. -/
def pushData (d : List Nat) : List Nat :=
  if d.length < 76 then d.length :: d
  else if d.length < 256 then 76 :: d.length :: d
  else if d.length < 65536 then 77 :: d.length % 256 :: d.length / 256 % 256 :: d
  else 78 :: (le32 d.length ++ d)

/-- Loop body of `multisig_redeem_script`: push every pubkey, failing on the
first one whose length is not 33. -/
def pushPubkeys : List (List Nat) → Except ScriptError (List Nat)
  | [] => .ok []
  | pk :: rest =>
    if pk.length ≠ 33 then .error (.invalidPubkeyLength pk.length)
    else (pushPubkeys rest).map (fun t => pushData pk ++ t)

/-- Embedding of `multisig_redeem_script`.  The source computes
`let n = pubkeys.len() as u8`, a truncating cast, embedded as `% 256`. -/
def multisig_redeem_script (m : Nat) (pubkeys : List (List Nat)) :
    Except ScriptError (List Nat) :=
  let n := pubkeys.length % 256
  if m = 0 ∨ n = 0 ∨ m > n ∨ n > 16 then .error (.invalidThreshold m n)
  else (pushPubkeys pubkeys).map (fun body => op_n m :: body ++ [op_n n, OP_CHECKMULTISIG])

def p2sh_script_pubkey (redeem_script : List Nat) : List Nat :=
  OP_HASH160 :: pushData (hash160 redeem_script) ++ [OP_EQUAL]

def redeem_script_hash160 (redeem_script : List Nat) : List Nat := hash160 redeem_script

/-! ## Transaction model (src/transaction.rs, `bitcoin::Transaction`) -/

structure TxIn where
  prevTxid : List Nat
  vout : Nat
  scriptSig : List Nat
  sequence : Nat
deriving DecidableEq

structure TxOut where
  value : Nat
  scriptPubkey : List Nat
deriving DecidableEq

structure Transaction where
  version : Nat
  lockTime : Nat
  input : List TxIn
  output : List TxOut
deriving DecidableEq

/-- The `Sequence::ENABLE_RBF_NO_LOCKTIME` constant. -/
def SEQUENCE_RBF : Nat := 0xFFFFFFFD

/-- Legacy wire serialization of one input: txid (internal byte order),
vout, script length varint, script, sequence. -/
def serTxIn (i : TxIn) : List Nat :=
  i.prevTxid ++ le32 i.vout ++ varint i.scriptSig.length ++ i.scriptSig ++ le32 i.sequence

def serTxOut (o : TxOut) : List Nat :=
  le64 o.value ++ varint o.scriptPubkey.length ++ o.scriptPubkey

/-- Legacy wire serialization of a transaction (`consensus_encode`). -/
def serTx (t : Transaction) : List Nat :=
  le32 t.version ++ varint t.input.length ++ (t.input.map serTxIn).flatten ++
    varint t.output.length ++ (t.output.map serTxOut).flatten ++ le32 t.lockTime

/-! Hex parsing of a txid (`Txid::from_str`): exactly 64 hex digits, parsed in
display order; the stored byte order is the reverse of the display order. -/

def hexVal (c : Char) : Option Nat :=
  if '0' ≤ c ∧ c ≤ '9' then some (c.toNat - 48)
  else if 'a' ≤ c ∧ c ≤ 'f' then some (c.toNat - 87)
  else if 'A' ≤ c ∧ c ≤ 'F' then some (c.toNat - 55)
  else none

def hexBytes : List Char → Option (List Nat)
  | [] => some []
  | [_] => none
  | a :: b :: rest => do
    let x ← hexVal a
    let y ← hexVal b
    let r ← hexBytes rest
    pure ((16 * x + y) :: r)

def txid_from_str (s : List Char) : Option (List Nat) :=
  if s.length = 64 then (hexBytes s).map List.reverse else none

/-- The external secp256k1 engine (`Secp256k1::new()` context), embedded as a
record of deterministic functions: `signDer digest sk` is the DER-serialized
ECDSA signature of a 32-byte digest under `sk` (RFC 6979 deterministic nonce),
`pubkey sk` the 33-byte compressed public-key serialization. -/
structure SecpContext where
  signDer : List Nat → List Nat → List Nat
  pubkey : List Nat → List Nat

/-- Enumerating script replacement of the legacy sighash: position `n` against
target index `target`; the target gets `script_code`, every other input the
empty script. -/
def replaceScriptsAux (n target : Nat) (script_code : List Nat) :
    List TxIn → List TxIn
  | [] => []
  | inp :: rest =>
    { inp with scriptSig := if n = target then script_code else [] } ::
      replaceScriptsAux (n + 1) target script_code rest

/-- Embedding of `SighashCache::legacy_signature_hash` specialized to
`EcdsaSighashType::All` (consensus value 1), the only type this program uses:
fail on an out-of-range index, otherwise double-SHA256 of the serialized
modified transaction followed by the little-endian sighash type. -/
def legacy_signature_hash (tx : Transaction) (input_index : Nat)
    (script_code : List Nat) : Option (List Nat) :=
  if input_index < tx.input.length then
    some (sha256d (serTx { tx with
      input := replaceScriptsAux 0 input_index script_code tx.input } ++ le32 1))
  else none

/-! ## Transaction builder (src/transaction.rs) -/

structure TransactionBuilder where
  inputs : List TxIn
  outputs : List TxOut
deriving DecidableEq

def TransactionBuilder.new : TransactionBuilder := ⟨[], []⟩

/-- Embedding of `add_input`.  `Txid::from_str(txid_hex).expect(..)` panics on
a malformed txid; the panic is `none`. -/
def TransactionBuilder.add_input (b : TransactionBuilder) (txid_hex : List Char)
    (vout : Nat) : Option TransactionBuilder :=
  match txid_from_str txid_hex with
  | none => none
  | some txid =>
    some { b with inputs := b.inputs ++
      [{ prevTxid := txid, vout := vout, scriptSig := [], sequence := SEQUENCE_RBF }] }

/-- Locking script chosen by `add_output` from the address kind. -/
def lockScript (address : DogeAddress) : List Nat :=
  match address.kind with
  | .P2pkh =>
    OP_DUP :: OP_HASH160 :: pushData address.hash160 ++ [OP_EQUALVERIFY, OP_CHECKSIG]
  | .P2sh => OP_HASH160 :: pushData address.hash160 ++ [OP_EQUAL]

def TransactionBuilder.add_output (b : TransactionBuilder) (address : DogeAddress)
    (amount_satoshis : Nat) : TransactionBuilder :=
  { b with outputs := b.outputs ++
    [{ value := amount_satoshis, scriptPubkey := lockScript address }] }

def TransactionBuilder.build (b : TransactionBuilder) : Transaction :=
  { version := 1, lockTime := 0, input := b.inputs, output := b.outputs }

def TransactionBuilder.to_transaction_ref (b : TransactionBuilder) : Transaction :=
  { version := 1, lockTime := 0, input := b.inputs, output := b.outputs }

/-- Embedding of `sign_input`.  Both the `.expect("Sighash generation failed")`
on an out-of-range index inside `legacy_signature_hash` and the subsequent
`self.inputs[input_index]` indexing panic are `none`. -/
def TransactionBuilder.sign_input (b : TransactionBuilder) (secp : SecpContext)
    (input_index : Nat) (secret_key : List Nat)
    (previous_script_pubkey : List Nat) : Option TransactionBuilder :=
  let public_key := secp.pubkey secret_key
  let tx := b.to_transaction_ref
  match legacy_signature_hash tx input_index previous_script_pubkey with
  | none => none
  | some sighash =>
    let signature := secp.signDer sighash secret_key
    let sig_with_hashtype := signature ++ [1]
    let script_sig := pushData sig_with_hashtype ++ pushData public_key
    if h : input_index < b.inputs.length then
      let old := b.inputs.get ⟨input_index, h⟩
      some { b with inputs := b.inputs.set input_index { old with scriptSig := script_sig } }
    else none

/-- Embedding of `sign_input_p2sh_multisig`.  The source recomputes the sighash
once per key over the same pre-loop snapshot, so every iteration produces the
same digest; the embedding computes it once.  With an empty key list the source
skips the loop and still panics at the final indexing when the index is out of
range, so the out-of-range outcome (`none`) is identical. -/
def TransactionBuilder.sign_input_p2sh_multisig (b : TransactionBuilder)
    (secp : SecpContext) (input_index : Nat) (secret_keys : List (List Nat))
    (redeem_script : List Nat) : Option TransactionBuilder :=
  let tx := b.to_transaction_ref
  match legacy_signature_hash tx input_index redeem_script with
  | none => none
  | some sighash =>
    let sigs := secret_keys.map (fun sk => secp.signDer sighash sk ++ [1])
    let script_sig :=
      OP_PUSHBYTES_0 :: (sigs.map pushData).flatten ++ pushData redeem_script
    if h : input_index < b.inputs.length then
      let old := b.inputs.get ⟨input_index, h⟩
      some { b with inputs := b.inputs.set input_index { old with scriptSig := script_sig } }
    else none

/-! ## Specification-side definitions

The following definitions are written from the specification's words, not from
the source, and are compared with the source embeddings by the refinement
theorems below. -/

/-- Checksum validity in the specification's words: the decoded byte string
ends with the first four bytes of the double SHA-256 of the rest.  A string
shorter than four bytes has no checksum and cannot match. -/
def specChecksumOk (data : List Nat) : Prop :=
  4 ≤ data.length ∧ data.drop (data.length - 4) = (sha256d (data.take (data.length - 4))).take 4

instance (data : List Nat) : Decidable (specChecksumOk data) := by
  unfold specChecksumOk; infer_instance

/-- Specification payload of a Base58Check string: the raw decoding with its
trailing 4-byte checksum removed. -/
def specPayload (s : List Char) : List Nat :=
  (rawB58 s).take ((rawB58 s).length - 4)

/-- Address decoding in the specification's words: fail with
`InvalidBase58Check` on an out-of-alphabet character or checksum mismatch;
fail with `InvalidLength` unless the payload (checksum excluded) is exactly
21 bytes; then test the version byte against every known network's P2PKH and
P2SH constants in a fixed order, Testnet before Mainnet, first match winning,
the matching constant determining network and kind; fail with
`UnknownVersionByte` when none matches. -/
def from_base58_spec (s : List Char) :
    Except AddressError (List Nat × Network × AddressKind) :=
  if ¬ (s.all isB58 = true) then .error .invalidBase58Check
  else if ¬ specChecksumOk (rawB58 s) then .error .invalidBase58Check
  else if (specPayload s).length ≠ 21 then .error (.invalidLength (specPayload s).length)
  else if (specPayload s).headD 0 = Network.Testnet.p2pkh_version_byte then
    .ok (specPayload s, .Testnet, .P2pkh)
  else if (specPayload s).headD 0 = Network.Testnet.p2sh_version_byte then
    .ok (specPayload s, .Testnet, .P2sh)
  else if (specPayload s).headD 0 = Network.Mainnet.p2pkh_version_byte then
    .ok (specPayload s, .Mainnet, .P2pkh)
  else if (specPayload s).headD 0 = Network.Mainnet.p2sh_version_byte then
    .ok (specPayload s, .Mainnet, .P2sh)
  else .error (.unknownVersionByte ((specPayload s).headD 0))

/-- Multisig redeem script in the specification's words, amended for the u8
truncation of the pubkey count: with `n` the truncated count, reject
`m = 0`, `n = 0`, `m > n`, `n > 16` with `InvalidThreshold`; reject the first
pubkey not exactly 33 bytes long with `InvalidPubkeyLength`; otherwise emit
`OP_<m>` and `OP_<n>` as the dedicated single-byte push-small-number opcodes
`0x50 + k`, each pubkey as a length-prefixed data push, and a final
`OP_CHECKMULTISIG` (0xae). -/
def multisig_spec (m : Nat) (pubkeys : List (List Nat)) :
    Except ScriptError (List Nat) :=
  let n := pubkeys.length % 256
  if m = 0 ∨ n = 0 ∨ m > n ∨ n > 16 then .error (.invalidThreshold m n)
  else match pubkeys.find? (fun pk => pk.length ≠ 33) with
    | some pk => .error (.invalidPubkeyLength pk.length)
    | none =>
      .ok ((0x50 + m) :: (pubkeys.map (fun pk => pk.length :: pk)).flatten ++
        [0x50 + n, 0xae])

/-- The sighash base transaction in the specification's words: input `i`'s
unlocking script is replaced by the scriptCode and every other input's
unlocking script is cleared to empty. -/
def specSighashTx (tx : Transaction) (i : Nat) (script_code : List Nat) :
    Transaction :=
  let cleared := tx.input.map fun inp => { inp with scriptSig := [] }
  let orig := tx.input.getD i { prevTxid := [], vout := 0, scriptSig := [], sequence := 0 }
  { tx with input := cleared.set i { orig with scriptSig := script_code } }

/-- The legacy SIGHASH_ALL digest in the specification's words: double SHA-256
of the legacy serialization of the modified transaction followed by the
four-byte little-endian value 0x00000001. -/
def spec_sighash (tx : Transaction) (i : Nat) (script_code : List Nat) : List Nat :=
  sha256d (serTx (specSighashTx tx i script_code) ++ [1, 0, 0, 0])

/-- A builder call sequence element for the assembler claims. -/
inductive BuildOp where
  | addInput : List Char → Nat → BuildOp
  | addOutput : DogeAddress → Nat → BuildOp

def applyOp (b : TransactionBuilder) : BuildOp → Option TransactionBuilder
  | .addInput hex v => b.add_input hex v
  | .addOutput a amt => some (b.add_output a amt)

def applyOps (b : TransactionBuilder) : List BuildOp → Option TransactionBuilder
  | [] => some b
  | op :: rest => (applyOp b op).bind (fun b2 => applyOps b2 rest)

/-- The input appended by a successful `add_input` call, none for `add_output`. -/
def opInput : BuildOp → Option TxIn
  | .addInput hex v =>
    (txid_from_str hex).map
      (fun t => { prevTxid := t, vout := v, scriptSig := [], sequence := SEQUENCE_RBF })
  | .addOutput _ _ => none

/-- The output appended by an `add_output` call, none for `add_input`. -/
def opOutput : BuildOp → Option TxOut
  | .addInput _ _ => none
  | .addOutput a amt => some { value := amt, scriptPubkey := lockScript a }

/-- Address well-formedness: a 21-byte payload whose version byte is one of
the stored network's two address version constants. -/
def wellFormed (a : DogeAddress) : Prop :=
  a.payload.length = 21 ∧
    (a.payload.headD 0 = a.network.p2pkh_version_byte ∨
      a.payload.headD 0 = a.network.p2sh_version_byte)

/-- The digest `sign_input` computes for input `i` and scriptCode `sc` over
the builder snapshot. -/
def signDigest (b : TransactionBuilder) (i : Nat) (sc : List Nat) : List Nat :=
  sha256d (serTx (Transaction.mk 1 0 (replaceScriptsAux 0 i sc b.inputs) b.outputs) ++ le32 1)

/-- The constructor selected by an address kind, for the round-trip claim. -/
def addrOf (kind : AddressKind) (h20 : List Nat) (net : Network) : DogeAddress :=
  match kind with
  | .P2pkh => DogeAddress.from_pubkey_hash h20 net
  | .P2sh => DogeAddress.from_script_hash h20 net

/-! ## Hash output shape lemmas -/

theorem foldl_sha256Round_length (l : List (Nat × Nat)) (st : List Nat) :
    (l.foldl sha256Round st).length = 8 ∨ l.foldl sha256Round st = st := by
  induction l generalizing st with
  | nil => exact Or.inr rfl
  | cons x xs ih =>
    rw [List.foldl_cons]
    rcases ih (sha256Round st x) with h | h
    · exact Or.inl h
    · exact Or.inl (by rw [h]; rfl)

theorem sha256Compress_length (st block : List Nat) (h : st.length = 8) :
    (sha256Compress st block).length = 8 := by
  unfold sha256Compress
  rcases foldl_sha256Round_length
      (List.zip sha256K (Nat.repeat sha256SchedStep 48 (bytesToWordsBE block))) st with
    h2 | h2 <;> simp [List.length_zipWith, h, h2]

theorem foldl_sha256Compress_length (blocks : List (List Nat)) (st : List Nat)
    (h : st.length = 8) : (blocks.foldl sha256Compress st).length = 8 := by
  induction blocks generalizing st with
  | nil => exact h
  | cons b bs ih => exact ih _ (sha256Compress_length st b h)

theorem flatten_wordsBE_length (ws : List Nat) :
    ((ws.map wordToBytesBE).flatten).length = 4 * ws.length := by
  induction ws with
  | nil => rfl
  | cons w ws ih => simp only [List.map_cons, List.flatten_cons, List.length_append, ih,
      wordToBytesBE, List.length_cons, List.length_nil]; omega

theorem sha256_length (msg : List Nat) : (sha256 msg).length = 32 := by
  unfold sha256
  rw [flatten_wordsBE_length,
    foldl_sha256Compress_length (chunksOf64 (sha256Pad msg)) sha256Init rfl]

theorem wordToBytesBE_lt (w : Nat) : ∀ x ∈ wordToBytesBE w, x < 256 := by
  intro x hx
  simp only [wordToBytesBE, List.mem_cons, List.not_mem_nil, or_false] at hx
  rcases hx with h | h | h | h <;> omega

theorem sha256_lt (msg : List Nat) : ∀ x ∈ sha256 msg, x < 256 := by
  intro x hx
  unfold sha256 at hx
  rw [List.mem_flatten] at hx
  obtain ⟨l, hl, hxl⟩ := hx
  rw [List.mem_map] at hl
  obtain ⟨w, _, rfl⟩ := hl
  exact wordToBytesBE_lt w x hxl

theorem foldl_rmdRound_length (X : List Nat) (right : Bool) (l : List Nat)
    (st : List Nat) :
    (l.foldl (rmdRound X right) st).length = 5 ∨ l.foldl (rmdRound X right) st = st := by
  induction l generalizing st with
  | nil => exact Or.inr rfl
  | cons x xs ih =>
    rw [List.foldl_cons]
    rcases ih (rmdRound X right st x) with h | h
    · exact Or.inl h
    · exact Or.inl (by rw [h]; rfl)

theorem rmdCompress_length (st block : List Nat) : (rmdCompress st block).length = 5 := rfl

theorem foldl_rmdCompress_length (blocks : List (List Nat)) (st : List Nat)
    (h : st.length = 5) : (blocks.foldl rmdCompress st).length = 5 := by
  induction blocks generalizing st with
  | nil => exact h
  | cons b bs ih => exact ih _ (rmdCompress_length st b)

theorem flatten_wordsLE_length (ws : List Nat) :
    ((ws.map wordToBytesLE).flatten).length = 4 * ws.length := by
  induction ws with
  | nil => rfl
  | cons w ws ih => simp only [List.map_cons, List.flatten_cons, List.length_append, ih,
      wordToBytesLE, List.length_cons, List.length_nil]; omega

theorem ripemd160_length (msg : List Nat) : (ripemd160 msg).length = 20 := by
  unfold ripemd160
  rw [flatten_wordsLE_length,
    foldl_rmdCompress_length (chunksOf64 (rmdPad msg)) rmdInit rfl]

/-! ## Base58 round-trip machinery -/

theorem foldl_mul_add (b : Nat) (l : List Nat) (a : Nat) :
    l.foldl (fun acc d => acc * b + d) a = a * b ^ l.length + Nat.ofDigits b l.reverse := by
  induction l generalizing a with
  | nil => simp
  | cons d rest ih =>
    rw [List.foldl_cons, ih, List.reverse_cons, Nat.ofDigits_append]
    simp only [Nat.ofDigits_singleton, List.length_reverse, List.length_cons, pow_succ]
    ring

theorem ofBytesBE_eq_ofDigits (bs : List Nat) :
    ofBytesBE bs = Nat.ofDigits 256 bs.reverse := by
  unfold ofBytesBE
  rw [foldl_mul_add]
  simp

theorem b58Val_b58Char : ∀ d < 58, b58Val (b58Char d) = d := by decide

theorem isB58_b58Char : ∀ d < 58, isB58 (b58Char d) = true := by decide

theorem b58Char_ne_one : ∀ d < 58, d ≠ 0 → b58Char d ≠ '1' := by decide

theorem countLeading_replicate {α : Type} [DecidableEq α] (x : α) (z : Nat) :
    countLeading x (List.replicate z x) = z := by
  induction z with
  | zero => rfl
  | succ n ih => simp [List.replicate_succ, countLeading, ih]

theorem countLeading_replicate_append_cons {α : Type} [DecidableEq α] (x c : α)
    (z : Nat) (rest : List α) (h : c ≠ x) :
    countLeading x (List.replicate z x ++ c :: rest) = z := by
  induction z with
  | zero => simp [countLeading, h]
  | succ n ih => simp [List.replicate_succ, countLeading, ih]

theorem foldl_congr_mem {α β : Type} (l : List α) (f g : β → α → β) (a : β)
    (h : ∀ x ∈ l, ∀ acc, f acc x = g acc x) : l.foldl f a = l.foldl g a := by
  induction l generalizing a with
  | nil => rfl
  | cons x xs ih =>
    rw [List.foldl_cons, List.foldl_cons, h x (by simp)]
    exact ih _ (fun y hy acc => h y (by simp [hy]) acc)

theorem b58Num_encode (bs : List Nat) : b58Num (b58Encode bs) = ofBytesBE bs := by
  unfold b58Num b58Encode
  rw [List.foldl_append]
  have h1 : ∀ z, (List.replicate z '1').foldl (fun a c => a * 58 + b58Val c) 0 = 0 := by
    intro z
    induction z with
    | zero => rfl
    | succ n ih => simpa [List.replicate_succ, List.foldl_cons] using ih
  rw [h1, List.foldl_map]
  rw [foldl_congr_mem _ _ (fun a d => a * 58 + d) 0 (fun d hd acc => by
    rw [b58Val_b58Char d (Nat.digits_lt_base (by norm_num) (List.mem_reverse.mp hd))])]
  rw [foldl_mul_add]
  simp [Nat.ofDigits_digits]

theorem b58Encode_all_valid (bs : List Nat) : (b58Encode bs).all isB58 = true := by
  unfold b58Encode
  rw [List.all_eq_true]
  intro c hc
  rcases List.mem_append.mp hc with h | h
  · rw [List.eq_of_mem_replicate h]
    decide
  · obtain ⟨d, hd, rfl⟩ := List.mem_map.mp h
    exact isB58_b58Char d (Nat.digits_lt_base (by norm_num) (List.mem_reverse.mp hd))

theorem countLeading_b58Encode (bs : List Nat) :
    countLeading '1' (b58Encode bs) = countLeading 0 bs := by
  unfold b58Encode
  by_cases h0 : ofBytesBE bs = 0
  · rw [h0]
    simp [countLeading_replicate]
  · rcases List.eq_nil_or_concat (Nat.digits 58 (ofBytesBE bs)) with hnil | ⟨L, d, hLd⟩
    · exact absurd (Nat.digits_ne_nil_iff_ne_zero.mpr h0) (fun hne => hne hnil)
    · have hd_ne : d ≠ 0 := by
        have hne : Nat.digits 58 (ofBytesBE bs) ≠ [] := Nat.digits_ne_nil_iff_ne_zero.mpr h0
        have hgl := Nat.getLast_digit_ne_zero 58 h0
        have h1 : (Nat.digits 58 (ofBytesBE bs)).getLast? = some d := by
          rw [hLd]
          simp [List.concat_eq_append]
        rw [List.getLast?_eq_getLast _ hne] at h1
        intro hd0
        exact hgl ((Option.some_inj.mp h1).trans hd0)
      have hd_mem : d ∈ Nat.digits 58 (ofBytesBE bs) := by
        rw [hLd]
        simp
      have hd_lt : d < 58 := Nat.digits_lt_base (by norm_num) hd_mem
      rw [hLd]
      simp only [List.concat_eq_append, List.reverse_append, List.reverse_cons,
        List.reverse_nil, List.nil_append, List.cons_append, List.map_cons]
      exact countLeading_replicate_append_cons '1' (b58Char d) _ _
        (b58Char_ne_one d hd_lt hd_ne)

theorem ofBytesBE_zero_all_zero (bs : List Nat) (h : ofBytesBE bs = 0) :
    ∀ x ∈ bs, x = 0 := by
  intro x hx
  rw [ofBytesBE_eq_ofDigits bs] at h
  exact Nat.digits_zero_of_eq_zero (by norm_num) h x (List.mem_reverse.mpr hx)

theorem bytes_reconstruct (bs : List Nat) (hlt : ∀ x ∈ bs, x < 256) :
    List.replicate (countLeading 0 bs) 0 ++ (Nat.digits 256 (ofBytesBE bs)).reverse = bs := by
  induction bs with
  | nil => simp [ofBytesBE, countLeading]
  | cons x rest ih =>
    by_cases hx : x = 0
    · subst hx
      have hv : ofBytesBE (0 :: rest) = ofBytesBE rest := by
        unfold ofBytesBE
        simp [List.foldl_cons]
      have hc : countLeading 0 (0 :: rest) = countLeading 0 rest + 1 := by
        simp [countLeading]
      rw [hv, hc, List.replicate_succ, List.cons_append,
        ih (fun y hy => hlt y (List.mem_cons_of_mem _ hy))]
    · have hc : countLeading 0 (x :: rest) = 0 := by
        simp [countLeading, hx]
      have hrev : (x :: rest).reverse ≠ [] := by simp
      have hv : ofBytesBE (x :: rest) = Nat.ofDigits 256 (x :: rest).reverse :=
        ofBytesBE_eq_ofDigits _
      rw [hc, List.replicate_zero, List.nil_append, hv,
        Nat.digits_ofDigits 256 (by norm_num) _
          (fun l hl => hlt l (List.mem_reverse.mp hl))
          (fun h => by rw [List.getLast_reverse]; exact hx),
        List.reverse_reverse]

theorem rawB58_encode (bs : List Nat) (hlt : ∀ x ∈ bs, x < 256) :
    rawB58 (b58Encode bs) = bs := by
  unfold rawB58
  rw [b58Num_encode, countLeading_b58Encode, bytes_reconstruct bs hlt]

theorem b58_roundtrip (bs : List Nat) (hlt : ∀ x ∈ bs, x < 256) :
    b58Decode (b58Encode bs) = some bs := by
  unfold b58Decode
  rw [if_pos (b58Encode_all_valid bs), rawB58_encode bs hlt]

theorem check_roundtrip (p : List Nat) (hlt : ∀ x ∈ p, x < 256) :
    decode_check (encode_check p) = some p := by
  unfold decode_check encode_check
  have hall : ∀ x ∈ p ++ (sha256d p).take 4, x < 256 := by
    intro x hx
    rcases List.mem_append.mp hx with h | h
    · exact hlt x h
    · exact sha256_lt _ x (List.mem_of_mem_take h)
  rw [b58_roundtrip _ hall]
  have h32 : (sha256d p).length = 32 := sha256_length (sha256 p)
  have hlen : (p ++ (sha256d p).take 4).length = p.length + 4 := by
    rw [List.length_append, List.length_take, h32]
    omega
  simp only [hlen]
  rw [if_neg (by omega)]
  have hsub : p.length + 4 - 4 = p.length := by omega
  rw [hsub, List.take_left, List.drop_left, if_pos rfl]

/-! ## Claim theorems -/

/-- C4: for every valid triple of 20-byte hash, network, and kind, building
the address with `from_pubkey_hash` or `from_script_hash`, encoding it with
`to_string` (Base58Check), and decoding with `from_base58` returns an address
equal to the original — same 21-byte payload, same network — and its derived
kind is the constructing kind. -/
theorem c4_address_roundtrip (h20 : List Nat) (net : Network) (kind : AddressKind)
    (hlen : h20.length = 20) (hlt : ∀ x ∈ h20, x < 256) :
    DogeAddress.from_base58 (DogeAddress.to_string (addrOf kind h20 net)) =
        .ok (addrOf kind h20 net) ∧
      (addrOf kind h20 net).kind = kind ∧
      (addrOf kind h20 net).network = net ∧
      (addrOf kind h20 net).payload.length = 21 := by
  have hp : ∀ vb, vb < 256 → ∀ x ∈ vb :: h20, x < 256 := by
    intro vb hvb x hx
    rcases List.mem_cons.mp hx with rfl | h
    · exact hvb
    · exact hlt x h
  cases kind <;> cases net <;>
    (simp only [addrOf, DogeAddress.from_pubkey_hash, DogeAddress.from_script_hash,
       DogeAddress.to_string, DogeAddress.from_base58]
     rw [check_roundtrip _ (hp _ (by decide))]
     simp [DogeAddress.kind, Network.p2pkh_version_byte, Network.p2sh_version_byte, hlen])

theorem decode_check_of_invalid {s : List Char} (hv : ¬ s.all isB58 = true) :
    decode_check s = none := by
  unfold decode_check b58Decode
  rw [if_neg hv]

theorem decode_check_of_valid {s : List Char} (hv : s.all isB58 = true) :
    decode_check s =
      if (rawB58 s).length < 4 then none
      else if (rawB58 s).drop ((rawB58 s).length - 4) =
          (sha256d ((rawB58 s).take ((rawB58 s).length - 4))).take 4 then
        some ((rawB58 s).take ((rawB58 s).length - 4))
      else none := by
  unfold decode_check b58Decode
  rw [if_pos hv]

theorem from_base58_of_none {s : List Char} (h : decode_check s = none) :
    DogeAddress.from_base58 s = .error .invalidBase58Check := by
  unfold DogeAddress.from_base58
  rw [h]

theorem from_base58_of_some {s : List Char} {d : List Nat}
    (h : decode_check s = some d) :
    DogeAddress.from_base58 s =
      (if d.length ≠ 21 then .error (.invalidLength d.length)
       else if d.headD 0 = Network.Testnet.p2pkh_version_byte ∨
           d.headD 0 = Network.Testnet.p2sh_version_byte then
         .ok { payload := d, network := .Testnet }
       else if d.headD 0 = Network.Mainnet.p2pkh_version_byte ∨
           d.headD 0 = Network.Mainnet.p2sh_version_byte then
         .ok { payload := d, network := .Mainnet }
       else .error (.unknownVersionByte (d.headD 0))) := by
  unfold DogeAddress.from_base58
  rw [h]

theorem kind_mk (p : List Nat) (net : Network) :
    DogeAddress.kind { payload := p, network := net } =
      (if p.headD 0 = net.p2pkh_version_byte then .P2pkh
       else if p.headD 0 = net.p2sh_version_byte then .P2sh
       else .P2pkh) := rfl

theorem except_map_ok {e a b : Type} (f : a → b) (x : a) :
    (Except.ok x : Except e a).map f = .ok (f x) := rfl

theorem except_map_error {e a b : Type} (f : a → b) (err : e) :
    (Except.error err : Except e a).map f = .error err := rfl

/-- C5: decoding follows exactly the specified error taxonomy and dispatch
order — `InvalidBase58Check` precisely on an out-of-alphabet character or a
failed checksum (a decoding too short to contain a checksum cannot match it),
then `InvalidLength` unless the payload is exactly 21 bytes, then the version
byte tested against Testnet P2PKH (0x71), Testnet P2SH (0xC4), Mainnet P2PKH
(0x1E), Mainnet P2SH (0x16) in that order, first match determining network
and kind, and `UnknownVersionByte` when none matches. -/
theorem c5_from_base58_taxonomy (s : List Char) :
    (DogeAddress.from_base58 s).map (fun a => (a.payload, a.network, a.kind)) =
      from_base58_spec s := by
  unfold from_base58_spec
  by_cases hv : s.all isB58 = true
  · rw [if_neg (not_not_intro hv)]
    by_cases hc : specChecksumOk (rawB58 s)
    · have hdc : decode_check s = some (specPayload s) := by
        rw [decode_check_of_valid hv, if_neg (by have h4 := hc.1; omega), if_pos hc.2]
        rfl
      rw [from_base58_of_some hdc, if_neg (not_not_intro hc)]
      by_cases h21 : (specPayload s).length = 21
      · rw [if_neg (not_not_intro h21), if_neg (not_not_intro h21)]
        by_cases hv1 : (specPayload s).headD 0 = Network.Testnet.p2pkh_version_byte
        · rw [if_pos (show (specPayload s).headD 0 = Network.Testnet.p2pkh_version_byte ∨
              (specPayload s).headD 0 = Network.Testnet.p2sh_version_byte from Or.inl hv1),
            if_pos hv1]
          simp only [except_map_ok, kind_mk]
          rw [if_pos hv1]
        · by_cases hv2 : (specPayload s).headD 0 = Network.Testnet.p2sh_version_byte
          · rw [if_pos (show (specPayload s).headD 0 = Network.Testnet.p2pkh_version_byte ∨
                (specPayload s).headD 0 = Network.Testnet.p2sh_version_byte from Or.inr hv2),
              if_neg hv1, if_pos hv2]
            simp only [except_map_ok, kind_mk]
            rw [if_neg hv1, if_pos hv2]
          · rw [if_neg (not_or.mpr ⟨hv1, hv2⟩), if_neg hv1, if_neg hv2]
            by_cases hv3 : (specPayload s).headD 0 = Network.Mainnet.p2pkh_version_byte
            · rw [if_pos (show (specPayload s).headD 0 = Network.Mainnet.p2pkh_version_byte ∨
                  (specPayload s).headD 0 = Network.Mainnet.p2sh_version_byte from Or.inl hv3),
                if_pos hv3]
              simp only [except_map_ok, kind_mk]
              rw [if_pos hv3]
            · by_cases hv4 : (specPayload s).headD 0 = Network.Mainnet.p2sh_version_byte
              · rw [if_pos (show (specPayload s).headD 0 = Network.Mainnet.p2pkh_version_byte ∨
                    (specPayload s).headD 0 = Network.Mainnet.p2sh_version_byte from Or.inr hv4),
                  if_neg hv3, if_pos hv4]
                simp only [except_map_ok, kind_mk]
                rw [if_neg hv3, if_pos hv4]
              · rw [if_neg (not_or.mpr ⟨hv3, hv4⟩), if_neg hv3, if_neg hv4, except_map_error]
      · rw [if_pos h21, if_pos h21, except_map_error]
    · have hdc : decode_check s = none := by
        rw [decode_check_of_valid hv]
        by_cases h4 : (rawB58 s).length < 4
        · rw [if_pos h4]
        · rw [if_neg h4, if_neg (fun he => hc ⟨by omega, he⟩)]
      rw [if_pos hc, from_base58_of_none hdc, except_map_error]
  · rw [if_pos hv, from_base58_of_none (decode_check_of_invalid hv), except_map_error]

theorem pushPubkeys_spec (pks : List (List Nat)) :
    pushPubkeys pks =
      match pks.find? (fun pk => pk.length ≠ 33) with
      | some pk => .error (.invalidPubkeyLength pk.length)
      | none => .ok ((pks.map (fun pk => pk.length :: pk)).flatten) := by
  induction pks with
  | nil => rfl
  | cons pk rest ih =>
    by_cases h : pk.length = 33
    · rw [show (pk :: rest).find? (fun pk => pk.length ≠ 33) =
          rest.find? (fun pk => pk.length ≠ 33) by simp [List.find?_cons, h]]
      have hstep : pushPubkeys (pk :: rest) =
          (pushPubkeys rest).map (fun t => pushData pk ++ t) := by
        simp only [pushPubkeys]
        rw [if_neg (not_not_intro h)]
      rw [hstep, ih]
      cases hfind : rest.find? (fun pk => pk.length ≠ 33) with
      | none => simp [pushData, h, except_map_ok]
      | some bad => rfl
    · rw [show (pk :: rest).find? (fun pk => pk.length ≠ 33) = some pk by
        simp [List.find?_cons, h]]
      simp only [pushPubkeys]
      rw [if_pos h]

set_option maxRecDepth 4000 in
/-- C6 counterexample: the claim requires `multisig_redeem_script` to fail
with `InvalidThreshold` whenever `len(pubkeys) > 16`, but the source truncates
the count with `as u8`, so 258 compressed pubkeys with threshold 2 truncate to
n = 2 and the call succeeds. -/
theorem c6_multisig_counterexample :
    (multisig_redeem_script 2 (List.replicate 258 (List.replicate 33 2))).isOk = true := by
  decide

/-- C6 (amended): `multisig_redeem_script` behaves exactly as specified with
the pubkey count first truncated to a `u8` (`n = len(pubkeys) mod 256`):
`InvalidThreshold{m,n}` for `m = 0`, `n = 0`, `m > n`, or `n > 16`;
`InvalidPubkeyLength(len)` for the first pubkey whose length is not 33;
otherwise the script `OP_<m> <pubkey_1> … <pubkey_k> OP_<n> OP_CHECKMULTISIG`
with `OP_<j>` the single-byte opcode `0x50 + j` (not a data push) and each
pubkey a length-prefixed data push. -/
theorem c6_multisig_redeem_script (m : Nat) (pubkeys : List (List Nat)) :
    multisig_redeem_script m pubkeys = multisig_spec m pubkeys := by
  unfold multisig_redeem_script multisig_spec
  by_cases ht : m = 0 ∨ pubkeys.length % 256 = 0 ∨ m > pubkeys.length % 256 ∨
      pubkeys.length % 256 > 16
  · rw [if_pos ht, if_pos ht]
  · rw [if_neg ht, if_neg ht, pushPubkeys_spec]
    push_neg at ht
    obtain ⟨hm, _, hmn, hn16⟩ := ht
    cases hfind : pubkeys.find? (fun pk => pk.length ≠ 33) with
    | none =>
      simp only [except_map_ok]
      have hopm : op_n m = 0x50 + m := by
        unfold op_n
        rw [if_neg hm, if_pos (le_trans hmn hn16)]
      have hopn : op_n (pubkeys.length % 256) = 0x50 + pubkeys.length % 256 := by
        unfold op_n
        rw [if_neg (by omega), if_pos hn16]
      rw [hopm, hopn]
      rfl
    | some bad => rfl

/-- C7: `add_output` appends exactly one output carrying the supplied amount
and the locking script derived from the address kind — the P2PKH template
`OP_DUP OP_HASH160 <20-byte hash> OP_EQUALVERIFY OP_CHECKSIG`
(76 a9 14 ‖ hash ‖ 88 ac) or the P2SH template `OP_HASH160 <hash> OP_EQUAL`
(a9 14 ‖ hash ‖ 87), the hash being the 20 bytes embedded in the address;
inputs are untouched. -/
theorem c7_add_output (b : TransactionBuilder) (a : DogeAddress) (amt : Nat)
    (h21 : a.payload.length = 21) :
    (b.add_output a amt).outputs = b.outputs ++
        [{ value := amt, scriptPubkey :=
            if a.kind = .P2pkh then
              [0x76, 0xa9, 0x14] ++ a.hash160 ++ [0x88, 0xac]
            else [0xa9, 0x14] ++ a.hash160 ++ [0x87] }] ∧
      (b.add_output a amt).inputs = b.inputs ∧ a.hash160.length = 20 := by
  have hlen : a.hash160.length = 20 := by
    unfold DogeAddress.hash160
    rw [List.length_take, List.length_drop, h21]
    omega
  refine ⟨?_, rfl, hlen⟩
  unfold TransactionBuilder.add_output lockScript
  cases hk : a.kind with
  | P2pkh =>
    simp [hk, pushData, hlen, OP_DUP, OP_HASH160, OP_EQUALVERIFY, OP_CHECKSIG]
  | P2sh =>
    simp [hk, pushData, hlen, OP_HASH160, OP_EQUAL]

/-- Witness for C7 at a concrete builder, address, and amount. -/
theorem c7_add_output_witness :
    (DogeAddress.mk (0x71 :: List.range 20) .Testnet).payload.length = 21 ∧
      ((TransactionBuilder.new.add_output
          (DogeAddress.mk (0x71 :: List.range 20) .Testnet) 5).outputs =
        TransactionBuilder.new.outputs ++
          [{ value := 5, scriptPubkey :=
              if (DogeAddress.mk (0x71 :: List.range 20) .Testnet).kind = .P2pkh then
                [0x76, 0xa9, 0x14] ++
                  (DogeAddress.mk (0x71 :: List.range 20) .Testnet).hash160 ++ [0x88, 0xac]
              else [0xa9, 0x14] ++
                  (DogeAddress.mk (0x71 :: List.range 20) .Testnet).hash160 ++ [0x87] }] ∧
        (TransactionBuilder.new.add_output
            (DogeAddress.mk (0x71 :: List.range 20) .Testnet) 5).inputs =
          TransactionBuilder.new.inputs ∧
        (DogeAddress.mk (0x71 :: List.range 20) .Testnet).hash160.length = 20) :=
  ⟨by decide, c7_add_output TransactionBuilder.new _ 5 (by decide)⟩

theorem applyOps_acc (ops : List BuildOp) :
    ∀ b st, applyOps b ops = some st →
      st.inputs = b.inputs ++ ops.filterMap opInput ∧
      st.outputs = b.outputs ++ ops.filterMap opOutput := by
  induction ops with
  | nil =>
    intro b st h
    obtain rfl : b = st := by simpa [applyOps] using h
    simp [List.filterMap_nil]
  | cons op rest ih =>
    intro b st h
    simp only [applyOps] at h
    cases hop : applyOp b op with
    | none => rw [hop] at h; simp at h
    | some b2 =>
      rw [hop] at h
      simp only [Option.some_bind] at h
      obtain ⟨h1, h2⟩ := ih b2 st h
      cases op with
      | addInput hex v =>
        simp only [applyOp, TransactionBuilder.add_input] at hop
        cases ht : txid_from_str hex with
        | none => rw [ht] at hop; simp at hop
        | some t =>
          rw [ht] at hop
          simp only [Option.some_inj] at hop
          subst hop
          simp only [List.filterMap_cons, opInput, opOutput, ht, Option.map_some] at h1 h2 ⊢
          constructor
          · rw [h1]
            simp
          · rw [h2]
      | addOutput a amt =>
        simp only [applyOp, Option.some_inj] at hop
        subst hop
        simp only [List.filterMap_cons, opOutput, opInput] at h1 h2 ⊢
        constructor
        · rw [h1]
          simp [TransactionBuilder.add_output]
        · rw [h2]
          simp [TransactionBuilder.add_output]

/-- C8: for every sequence of successful `add_input`/`add_output` calls,
`build` returns a transaction with version 1, lock time 0, and input and
output lists equal, element for element and in call order, to the lists the
calls accumulated. -/
theorem c8_build (ops : List BuildOp) (st : TransactionBuilder)
    (h : applyOps TransactionBuilder.new ops = some st) :
    st.build.version = 1 ∧ st.build.lockTime = 0 ∧
      st.build.input = ops.filterMap opInput ∧
      st.build.output = ops.filterMap opOutput := by
  obtain ⟨h1, h2⟩ := applyOps_acc ops TransactionBuilder.new st h
  refine ⟨rfl, rfl, ?_, ?_⟩
  · show st.inputs = _
    rw [h1]
    rfl
  · show st.outputs = _
    rw [h2]
    rfl

/-- Witness for C8 at a concrete call sequence. -/
theorem c8_build_witness :
    (applyOps TransactionBuilder.new
        [BuildOp.addInput (List.replicate 64 '0') 0,
         BuildOp.addOutput { payload := 0x71 :: List.range 20, network := .Testnet } 7] =
      some { inputs := [{ prevTxid := List.replicate 32 0, vout := 0, scriptSig := [],
                          sequence := SEQUENCE_RBF }],
             outputs := [{ value := 7,
                           scriptPubkey := [0x76, 0xa9, 0x14] ++ List.range 20 ++
                             [0x88, 0xac] }] }) ∧
    ((TransactionBuilder.build
        { inputs := [{ prevTxid := List.replicate 32 0, vout := 0, scriptSig := [],
                       sequence := SEQUENCE_RBF }],
          outputs := [{ value := 7,
                        scriptPubkey := [0x76, 0xa9, 0x14] ++ List.range 20 ++
                          [0x88, 0xac] }] }).version = 1 ∧
      (TransactionBuilder.build
        { inputs := [{ prevTxid := List.replicate 32 0, vout := 0, scriptSig := [],
                       sequence := SEQUENCE_RBF }],
          outputs := [{ value := 7,
                        scriptPubkey := [0x76, 0xa9, 0x14] ++ List.range 20 ++
                          [0x88, 0xac] }] }).lockTime = 0 ∧
      (TransactionBuilder.build
        { inputs := [{ prevTxid := List.replicate 32 0, vout := 0, scriptSig := [],
                       sequence := SEQUENCE_RBF }],
          outputs := [{ value := 7,
                        scriptPubkey := [0x76, 0xa9, 0x14] ++ List.range 20 ++
                          [0x88, 0xac] }] }).input =
        [BuildOp.addInput (List.replicate 64 '0') 0,
         BuildOp.addOutput { payload := 0x71 :: List.range 20, network := .Testnet }
           7].filterMap opInput ∧
      (TransactionBuilder.build
        { inputs := [{ prevTxid := List.replicate 32 0, vout := 0, scriptSig := [],
                       sequence := SEQUENCE_RBF }],
          outputs := [{ value := 7,
                        scriptPubkey := [0x76, 0xa9, 0x14] ++ List.range 20 ++
                          [0x88, 0xac] }] }).output =
        [BuildOp.addInput (List.replicate 64 '0') 0,
         BuildOp.addOutput { payload := 0x71 :: List.range 20, network := .Testnet }
           7].filterMap opOutput) :=
  ⟨by decide, c8_build _ _ (by decide)⟩

theorem sign_input_of_inrange (secp : SecpContext) (b : TransactionBuilder)
    (i : Nat) (sk sc : List Nat) (h : i < b.inputs.length) :
    b.sign_input secp i sk sc =
      some { b with inputs := b.inputs.set i { b.inputs.get ⟨i, h⟩ with
        scriptSig := pushData (secp.signDer (signDigest b i sc) sk ++ [1]) ++
          pushData (secp.pubkey sk) } } := by
  unfold TransactionBuilder.sign_input legacy_signature_hash
    TransactionBuilder.to_transaction_ref signDigest
  simp [h]

theorem sign_input_of_outrange (secp : SecpContext) (b : TransactionBuilder)
    (i : Nat) (sk sc : List Nat) (h : ¬ i < b.inputs.length) :
    b.sign_input secp i sk sc = none := by
  unfold TransactionBuilder.sign_input legacy_signature_hash
    TransactionBuilder.to_transaction_ref
  simp [h]

theorem sign_multisig_of_inrange (secp : SecpContext) (b : TransactionBuilder)
    (i : Nat) (sks : List (List Nat)) (rs : List Nat) (h : i < b.inputs.length) :
    b.sign_input_p2sh_multisig secp i sks rs =
      some { b with inputs := b.inputs.set i { b.inputs.get ⟨i, h⟩ with
        scriptSig := OP_PUSHBYTES_0 ::
          ((sks.map (fun sk => secp.signDer (signDigest b i rs) sk ++ [1])).map
            pushData).flatten ++ pushData rs } } := by
  unfold TransactionBuilder.sign_input_p2sh_multisig legacy_signature_hash
    TransactionBuilder.to_transaction_ref signDigest
  simp [h]

theorem sign_multisig_of_outrange (secp : SecpContext) (b : TransactionBuilder)
    (i : Nat) (sks : List (List Nat)) (rs : List Nat) (h : ¬ i < b.inputs.length) :
    b.sign_input_p2sh_multisig secp i sks rs = none := by
  unfold TransactionBuilder.sign_input_p2sh_multisig legacy_signature_hash
    TransactionBuilder.to_transaction_ref
  simp [h]

theorem add_input_of_bad_txid (b : TransactionBuilder) (hex : List Char) (v : Nat)
    (h : txid_from_str hex = none) : b.add_input hex v = none := by
  unfold TransactionBuilder.add_input
  rw [h]

/-- C1: the claimed error-handling contract does not hold — the signing
engine and `add_input` panic instead of returning typed errors.  Evaluating
the embeddings at the failing inputs: `sign_input` and
`sign_input_p2sh_multisig` on a builder with no inputs (index 0 out of range)
reach the `expect`/index panic (modelled `none`, no typed-error channel exists
in their `()`-returning signatures), and `add_input` with a non-hex txid
string reaches the `expect` panic of `Txid::from_str`. -/
theorem c1_panic_not_typed_error :
    TransactionBuilder.new.sign_input ⟨fun _ _ => [], fun _ => []⟩ 0 [] [] = none ∧
      TransactionBuilder.new.sign_input_p2sh_multisig
        ⟨fun _ _ => [], fun _ => []⟩ 0 [] [] = none ∧
      TransactionBuilder.new.add_input ['z', 'z'] 0 = none :=
  ⟨rfl, rfl, rfl⟩

theorem replaceScriptsAux_gt (sc : List Nat) :
    ∀ (l : List TxIn) (n i : Nat), i < n →
      replaceScriptsAux n i sc l = l.map (fun inp => { inp with scriptSig := [] }) := by
  intro l
  induction l with
  | nil => intro n i h; rfl
  | cons x xs ih =>
    intro n i h
    simp only [replaceScriptsAux, List.map_cons]
    rw [if_neg (by omega), ih (n + 1) i (by omega)]

theorem replaceScriptsAux_set (sc : List Nat) (d : TxIn) :
    ∀ (l : List TxIn) (n k : Nat), k < l.length →
      replaceScriptsAux n (n + k) sc l =
        (l.map (fun inp => { inp with scriptSig := [] })).set k
          { l.getD k d with scriptSig := sc } := by
  intro l
  induction l with
  | nil => intro n k h; simp at h
  | cons x xs ih =>
    intro n k h
    cases k with
    | zero =>
      simp only [replaceScriptsAux, Nat.add_zero, List.map_cons,
        List.set_cons_zero, List.getD_cons_zero]
      rw [if_true, replaceScriptsAux_gt sc xs (n + 1) n (by omega)]
    | succ k2 =>
      simp only [replaceScriptsAux, List.map_cons, List.set_cons_succ,
        List.getD_cons_succ]
      rw [if_neg (by omega), show n + (k2 + 1) = (n + 1) + k2 by omega,
        ih (n + 1) k2 (by simpa using h)]

/-- C2: for every transaction state, in-range input index, and scriptCode —
whatever unlocking scripts are already present — the digest computed by the
signing engine equals the double SHA-256 of the legacy serialization of the
transaction with input `i`'s unlocking script replaced by the scriptCode and
every other unlocking script cleared, followed by the 4-byte little-endian
SIGHASH_ALL value 0x00000001. -/
theorem c2_sighash_formula (tx : Transaction) (i : Nat) (sc : List Nat)
    (h : i < tx.input.length) :
    legacy_signature_hash tx i sc = some (spec_sighash tx i sc) := by
  unfold legacy_signature_hash spec_sighash specSighashTx
  rw [if_pos h]
  have hAux := replaceScriptsAux_set sc (TxIn.mk [] 0 [] 0) tx.input 0 i h
  rw [Nat.zero_add] at hAux
  rw [hAux, show le32 1 = [1, 0, 0, 0] from by decide]

/-- Witness for C2 at a concrete transaction and index. -/
theorem c2_sighash_formula_witness :
    0 < (Transaction.mk 1 0 [TxIn.mk [] 0 [9] 0] []).input.length ∧
      legacy_signature_hash (Transaction.mk 1 0 [TxIn.mk [] 0 [9] 0] []) 0 [7] =
        some (spec_sighash (Transaction.mk 1 0 [TxIn.mk [] 0 [9] 0] []) 0 [7]) :=
  ⟨by decide, c2_sighash_formula (Transaction.mk 1 0 [TxIn.mk [] 0 [9] 0] []) 0 [7]
    (by decide)⟩

/-- C3: for every in-range index the unlocking script written into the
targeted input has exactly the specified shape — for `sign_input` a push of
the DER signature with 0x01 appended followed by a push of the compressed
public key; for `sign_input_p2sh_multisig` the byte OP_0 (0x00), one push of
each signature‖0x01 in exactly caller key order, then a push of the redeem
script — and only the targeted input is modified (a `List.set` at the target,
outputs and the other inputs untouched). -/
theorem c3_script_sig_shape (secp : SecpContext) (b : TransactionBuilder) (i : Nat)
    (sk sc rs : List Nat) (sks : List (List Nat)) (h : i < b.inputs.length) :
    (b.sign_input secp i sk sc =
      some { b with inputs := b.inputs.set i { b.inputs.get ⟨i, h⟩ with
        scriptSig := pushData (secp.signDer (signDigest b i sc) sk ++ [1]) ++
          pushData (secp.pubkey sk) } }) ∧
    (b.sign_input_p2sh_multisig secp i sks rs =
      some { b with inputs := b.inputs.set i { b.inputs.get ⟨i, h⟩ with
        scriptSig := 0x00 ::
          (sks.map (fun k => pushData (secp.signDer (signDigest b i rs) k ++ [1]))).flatten
          ++ pushData rs } }) := by
  constructor
  · exact sign_input_of_inrange secp b i sk sc h
  · rw [sign_multisig_of_inrange secp b i sks rs h]
    rw [show OP_PUSHBYTES_0 = 0x00 from rfl, List.map_map]
    rfl

/-- Witness for C3 at a concrete builder, context, and keys. -/
theorem c3_script_sig_shape_witness :
    0 < (TransactionBuilder.mk [TxIn.mk [] 0 [] 0] []).inputs.length ∧
    ((TransactionBuilder.mk [TxIn.mk [] 0 [] 0] []).sign_input
        (SecpContext.mk (fun d k => d ++ k) (fun k => k)) 0 [1] [2] =
      some (TransactionBuilder.mk
        [TxIn.mk [] 0
          (pushData (signDigest (TransactionBuilder.mk [TxIn.mk [] 0 [] 0] []) 0 [2] ++
            [1] ++ [1]) ++ pushData [1]) 0] []) ∧
    ((TransactionBuilder.mk [TxIn.mk [] 0 [] 0] []).sign_input_p2sh_multisig
        (SecpContext.mk (fun d k => d ++ k) (fun k => k)) 0 [[3], [4]] [5] =
      some (TransactionBuilder.mk
        [TxIn.mk [] 0
          (0x00 :: ([[3], [4]].map (fun k =>
            pushData (signDigest (TransactionBuilder.mk [TxIn.mk [] 0 [] 0] []) 0 [5] ++
              k ++ [1]))).flatten ++ pushData [5]) 0] []))) :=
  ⟨by decide, c3_script_sig_shape (SecpContext.mk (fun d k => d ++ k) (fun k => k))
    (TransactionBuilder.mk [TxIn.mk [] 0 [] 0] []) 0 [1] [2] [5] [[3], [4]] (by decide)⟩

theorem replaceScriptsAux_congr (sc : List Nat) :
    ∀ (l1 l2 : List TxIn),
      l1.map (fun inp => { inp with scriptSig := [] }) =
        l2.map (fun inp => { inp with scriptSig := [] }) →
      ∀ n i, replaceScriptsAux n i sc l1 = replaceScriptsAux n i sc l2 := by
  intro l1
  induction l1 with
  | nil =>
    intro l2 h n i
    cases l2 with
    | nil => rfl
    | cons y ys => simp at h
  | cons x xs ih =>
    intro l2 h n i
    cases l2 with
    | nil => simp at h
    | cons y ys =>
      simp only [List.map_cons, List.cons.injEq] at h
      obtain ⟨hxy, hrest⟩ := h
      rcases x with ⟨xp, xv, xg, xq⟩
      rcases y with ⟨yp, yv, yg, yq⟩
      simp only [TxIn.mk.injEq, and_true, true_and] at hxy
      obtain ⟨e1, e2, e3⟩ := hxy
      subst e1
      subst e2
      subst e3
      simp only [replaceScriptsAux, List.cons.injEq]
      exact ⟨trivial, ih ys hrest (n + 1) i⟩

theorem map_clear_set (l : List TxIn) (j : Nat) (hj : j < l.length) (s2 : List Nat) :
    ((l.set j { l.get ⟨j, hj⟩ with scriptSig := s2 }).map
        (fun inp => { inp with scriptSig := [] })) =
      l.map (fun inp => { inp with scriptSig := [] }) := by
  apply List.ext_getElem
  · simp
  · intro k h1 h2
    by_cases hk : k = j
    · subst hk
      simp
    · rw [List.getElem_map, List.getElem_map, List.getElem_set_ne (by omega)]

/-- C9: signing is deterministic and idempotent — for an in-range index, the
first `sign_input` call succeeds, the digest recomputed over the mutated
state equals the original digest (the written unlocking script is discarded
during digest computation), and a second identical call writes a byte-for-byte
identical unlocking script, leaving the state fixed.  Determinism of the
per-message nonce is captured by the ECDSA engine being a function of digest
and key. -/
theorem c9_sign_idempotent (secp : SecpContext) (b : TransactionBuilder) (i : Nat)
    (sk sc : List Nat) (h : i < b.inputs.length) :
    ∃ st1, b.sign_input secp i sk sc = some st1 ∧
      signDigest st1 i sc = signDigest b i sc ∧
      st1.sign_input secp i sk sc = some st1 := by
  set S := pushData (secp.signDer (signDigest b i sc) sk ++ [1]) ++
    pushData (secp.pubkey sk) with hS
  set e : TxIn := { b.inputs.get ⟨i, h⟩ with scriptSig := S } with he_def
  set st1 : TransactionBuilder := { b with inputs := b.inputs.set i e } with hst
  have h1 : b.sign_input secp i sk sc = some st1 := by
    rw [sign_input_of_inrange secp b i sk sc h]
  have hdig : signDigest st1 i sc = signDigest b i sc := by
    show signDigest { b with inputs := b.inputs.set i e } i sc = _
    unfold signDigest
    dsimp only
    rw [replaceScriptsAux_congr sc _ _ (map_clear_set b.inputs i h S) 0 i]
  have hlen : i < st1.inputs.length := by
    show i < (b.inputs.set i e).length
    simpa using h
  have h2 : st1.sign_input secp i sk sc = some st1 := by
    rw [sign_input_of_inrange secp st1 i sk sc hlen, hdig]
    have hget : st1.inputs.get ⟨i, hlen⟩ = e := List.getElem_set_self _
    rw [hget]
    show some { st1 with inputs := st1.inputs.set i e } = some st1
    have hset : st1.inputs.set i e = st1.inputs := by
      show (b.inputs.set i e).set i e = b.inputs.set i e
      rw [List.set_set]
    rw [hset]
  exact ⟨st1, h1, hdig, h2⟩

/-- Witness for C9 at a concrete builder and context. -/
theorem c9_sign_idempotent_witness :
    0 < (TransactionBuilder.mk [TxIn.mk [] 0 [] 0] []).inputs.length ∧
    (∃ st1, (TransactionBuilder.mk [TxIn.mk [] 0 [] 0] []).sign_input
        (SecpContext.mk (fun d k => d ++ k) (fun k => k)) 0 [1] [2] = some st1 ∧
      signDigest st1 0 [2] =
        signDigest (TransactionBuilder.mk [TxIn.mk [] 0 [] 0] []) 0 [2] ∧
      st1.sign_input (SecpContext.mk (fun d k => d ++ k) (fun k => k)) 0 [1] [2] =
        some st1) :=
  ⟨by decide, c9_sign_idempotent (SecpContext.mk (fun d k => d ++ k) (fun k => k))
    (TransactionBuilder.mk [TxIn.mk [] 0 [] 0] []) 0 [1] [2] (by decide)⟩

/-- C10: every address produced by `from_pubkey`, `from_pubkey_hash`,
`from_script_hash`, or a successful `from_base58` has a 21-byte payload whose
version byte is one of the stored network's two address constants;
consequently `hash160()` and `pubkey_hash()` return exactly 20 bytes, and the
defensive fallback branch of `kind()` (version byte matching neither
constant) is unreachable for such addresses. -/
theorem c10_address_invariants :
    (∀ pk net, wellFormed (DogeAddress.from_pubkey pk net)) ∧
    (∀ h20 net, h20.length = 20 → wellFormed (DogeAddress.from_pubkey_hash h20 net)) ∧
    (∀ h20 net, h20.length = 20 → wellFormed (DogeAddress.from_script_hash h20 net)) ∧
    (∀ s a, DogeAddress.from_base58 s = .ok a → wellFormed a) ∧
    (∀ a, wellFormed a → a.hash160.length = 20 ∧ a.pubkey_hash.length = 20 ∧
      ¬ (a.payload.headD 0 ≠ a.network.p2pkh_version_byte ∧
         a.payload.headD 0 ≠ a.network.p2sh_version_byte)) := by
  refine ⟨?_, ?_, ?_, ?_, ?_⟩
  · intro pk net
    refine ⟨?_, Or.inl rfl⟩
    show (net.p2pkh_version_byte :: ripemd160 (sha256 pk)).length = 21
    rw [List.length_cons, ripemd160_length]
  · intro h20 net hlen
    exact ⟨by simpa [DogeAddress.from_pubkey_hash] using hlen, Or.inl rfl⟩
  · intro h20 net hlen
    exact ⟨by simpa [DogeAddress.from_script_hash] using hlen, Or.inr rfl⟩
  · intro s a hok
    cases hdc : decode_check s with
    | none =>
      rw [from_base58_of_none hdc] at hok
      exact absurd hok (by simp)
    | some d =>
      rw [from_base58_of_some hdc] at hok
      by_cases h21 : d.length = 21
      · rw [if_neg (not_not_intro h21)] at hok
        by_cases hT : d.headD 0 = Network.Testnet.p2pkh_version_byte ∨
            d.headD 0 = Network.Testnet.p2sh_version_byte
        · rw [if_pos hT] at hok
          obtain rfl : ({ payload := d, network := .Testnet } : DogeAddress) = a := by
            simpa using hok
          exact ⟨h21, hT⟩
        · rw [if_neg hT] at hok
          by_cases hM : d.headD 0 = Network.Mainnet.p2pkh_version_byte ∨
              d.headD 0 = Network.Mainnet.p2sh_version_byte
          · rw [if_pos hM] at hok
            obtain rfl : ({ payload := d, network := .Mainnet } : DogeAddress) = a := by
              simpa using hok
            exact ⟨h21, hM⟩
          · rw [if_neg hM] at hok
            exact absurd hok (by simp)
      · rw [if_pos h21] at hok
        exact absurd hok (by simp)
  · intro a hwf
    obtain ⟨h21, hv⟩ := hwf
    have hlen : a.hash160.length = 20 := by
      unfold DogeAddress.hash160
      rw [List.length_take, List.length_drop, h21]
      omega
    have hlen2 : a.pubkey_hash.length = 20 := by
      unfold DogeAddress.pubkey_hash
      rw [List.length_take, List.length_drop, h21]
      omega
    refine ⟨hlen, hlen2, ?_⟩
    rintro ⟨hn1, hn2⟩
    rcases hv with h | h
    · exact hn1 h
    · exact hn2 h

/-- Witness for C10 at concrete inputs for each hypothesis-bearing part. -/
theorem c10_address_invariants_witness :
    ((List.range 20).length = 20 ∧
      wellFormed (DogeAddress.from_pubkey_hash (List.range 20) .Mainnet)) ∧
    (DogeAddress.from_base58
        (DogeAddress.to_string (DogeAddress.mk (0x71 :: List.range 20) .Testnet)) =
          .ok (DogeAddress.mk (0x71 :: List.range 20) .Testnet) →
      wellFormed (DogeAddress.mk (0x71 :: List.range 20) .Testnet)) ∧
    (wellFormed (DogeAddress.mk (0x71 :: List.range 20) .Testnet) ∧
      (DogeAddress.mk (0x71 :: List.range 20) .Testnet).hash160.length = 20) :=
  ⟨⟨by decide, c10_address_invariants.2.1 (List.range 20) .Mainnet (by decide)⟩,
    fun hok => c10_address_invariants.2.2.2.1 _ _ hok,
    by
      have hwf : wellFormed (DogeAddress.mk (0x71 :: List.range 20) .Testnet) := by
        constructor
        · decide
        · exact Or.inl (by decide)
      exact ⟨hwf, (c10_address_invariants.2.2.2.2 _ hwf).1⟩⟩

/-- Witness for C4 at a concrete hash, network, and kind. -/
theorem c4_address_roundtrip_witness :
    (List.range 20).length = 20 ∧ (∀ x ∈ List.range 20, x < 256) ∧
      (DogeAddress.from_base58
          (DogeAddress.to_string (addrOf .P2sh (List.range 20) .Mainnet)) =
          .ok (addrOf .P2sh (List.range 20) .Mainnet) ∧
        (addrOf .P2sh (List.range 20) .Mainnet).kind = .P2sh ∧
        (addrOf .P2sh (List.range 20) .Mainnet).network = .Mainnet ∧
        (addrOf .P2sh (List.range 20) .Mainnet).payload.length = 21) :=
  ⟨by decide, by decide,
    c4_address_roundtrip (List.range 20) .Mainnet .P2sh (by decide) (by decide)⟩

end DogeHack
